import Mathlib

/-
Formal model of the rice-mill procurement application (src/app.py).

Conventions of the embedding:
* Quantities (quintals) are rationals; the Python code computes with
  floats and rounds displayed values with round(x, 2), modelled below by
  round2 (round half to even, as the Python built-in round).
* Dates are naturals: the code stores ISO YYYY-MM-DD date strings, and the
  lexicographic string order used by groupby / sort_values / comparison
  filters coincides with chronological order on that format, so any linear
  order is a faithful model of the date column.
* The spreadsheet rows of one KMS year are passed to each computation
  already filtered, exactly as the code filters by kms_year before the
  computations modelled here.
-/

namespace RiceMill

/-- Constant WEIGHT_PER_BAG = 0.51 quintals per bag (src/app.py line 208). -/
def WEIGHT_PER_BAG : ℚ := 51 / 100

/-- Constant DIFFERENCE_THRESHOLD = 2.0 quintals (src/app.py line 209). -/
def DIFFERENCE_THRESHOLD : ℚ := 2

/-- One row of the Master Stock register built by the loop at src/app.py
lines 1338-1365.  The fields hold the values computed by the loop body;
the code additionally rounds each displayed cell to two decimals. -/
structure StockRow where
  date : ℕ
  opening : ℚ
  received : ℚ
  progReceived : ℚ
  total : ℚ
  issued : ℚ
  progMilling : ℚ
  closing : ℚ
  deriving Repr, DecidableEq

/-- Model of src/app.py lines 1324-1327: group the admin arrivals of the
selected KMS year by date, sum quantity_quintals within each date, and sort
the resulting one-row-per-date table by date ascending. -/
def dailyReceived (arrivals : List (ℕ × ℚ)) : List (ℕ × ℚ) :=
  ((arrivals.map Prod.fst).dedup.insertionSort (· ≤ ·)).map
    (fun d => (d, ((arrivals.filter (fun r => r.1 == d)).map Prod.snd).sum))

/-- Model of src/app.py lines 1330-1336 and 1348: milling_by_date is the
per-date sum of issued_quintals over the milling rows of the KMS year, and
the loop reads it with .get(stock_date, 0), i.e. 0 for an absent date. -/
def millingByDate (milling : List (ℕ × ℚ)) (d : ℕ) : ℚ :=
  ((milling.filter (fun r => r.1 == d)).map Prod.snd).sum

/-- The stock-ledger loop of src/app.py lines 1338-1365 with its mutable
state (prog_received, prog_milling, prev_closing) made explicit. -/
def masterStockGo (m : ℕ → ℚ) :
    List (ℕ × ℚ) → ℚ → ℚ → ℚ → List StockRow
  | [], _, _, _ => []
  | (d, received) :: rest, progReceived, progMilling, prevClosing =>
    let progReceived2 := progReceived + received
    let issued := m d
    let progMilling2 := progMilling + issued
    let opening := prevClosing
    let total := opening + received
    let closing := total - issued
    { date := d, opening := opening, received := received,
      progReceived := progReceived2, total := total, issued := issued,
      progMilling := progMilling2, closing := closing }
      :: masterStockGo m rest progReceived2 progMilling2 closing

/-- The Master Stock register computed for one KMS year from the arrival
rows (date, quantity_quintals) and milling rows (date, issued_quintals) of
that year (src/app.py lines 1319-1365). -/
def masterStock (arrivals milling : List (ℕ × ℚ)) : List StockRow :=
  masterStockGo (millingByDate milling) (dailyReceived arrivals) 0 0 0

/-- The Current Stock metric of the admin Dashboard tab (src/app.py lines
966-974): the sum of all admin-arrival quantities of the KMS year minus
the sum of all milling quantities of the KMS year. -/
def dashboardCurrentStock (arrivals milling : List (ℕ × ℚ)) : ℚ :=
  (arrivals.map Prod.snd).sum - (milling.map Prod.snd).sum

/-- The Current Stock metric of the Master Stock tab (src/app.py line
1374): the value of prev_closing after the register loop, i.e. the closing
balance of the last register row, or 0 when the register is empty. -/
def registerCurrentStock (arrivals milling : List (ℕ × ℚ)) : ℚ :=
  ((masterStock arrivals milling).map StockRow.closing).getLastD 0

/-- Master induction lemma for the register loop: starting from state
(progReceived, progMilling, prevClosing) = (pr, pm, c), the row at index i
satisfies the loop-body arithmetic, and its progressive totals and opening
balance are prefix sums of the received and issued columns. -/
theorem masterStockGo_get (m : ℕ → ℚ) :
    ∀ (daily : List (ℕ × ℚ)) (pr pm c : ℚ) (i : ℕ)
      (h : i < (masterStockGo m daily pr pm c).length),
      ((masterStockGo m daily pr pm c).get ⟨i, h⟩).total =
        ((masterStockGo m daily pr pm c).get ⟨i, h⟩).opening +
          ((masterStockGo m daily pr pm c).get ⟨i, h⟩).received ∧
      ((masterStockGo m daily pr pm c).get ⟨i, h⟩).closing =
        ((masterStockGo m daily pr pm c).get ⟨i, h⟩).total -
          ((masterStockGo m daily pr pm c).get ⟨i, h⟩).issued ∧
      ((masterStockGo m daily pr pm c).get ⟨i, h⟩).progReceived =
        pr + (((masterStockGo m daily pr pm c).take (i + 1)).map
          StockRow.received).sum ∧
      ((masterStockGo m daily pr pm c).get ⟨i, h⟩).progMilling =
        pm + (((masterStockGo m daily pr pm c).take (i + 1)).map
          StockRow.issued).sum ∧
      ((masterStockGo m daily pr pm c).get ⟨i, h⟩).opening =
        c + (((masterStockGo m daily pr pm c).take i).map
          StockRow.received).sum -
          (((masterStockGo m daily pr pm c).take i).map StockRow.issued).sum
  | [], _, _, _, i, h => absurd h (by simp [masterStockGo])
  | (d, r) :: rest, pr, pm, c, 0, h => by
    refine ⟨rfl, rfl, ?_, ?_, ?_⟩ <;>
      simp [masterStockGo]
  | (d, r) :: rest, pr, pm, c, i + 1, h => by
    have h' : i < (masterStockGo m rest (pr + r) (pm + m d)
        (c + r - m d)).length := by
      simpa [masterStockGo] using h
    obtain ⟨h1, h2, h3, h4, h5⟩ :=
      masterStockGo_get m rest (pr + r) (pm + m d) (c + r - m d) i h'
    refine ⟨?_, ?_, ?_, ?_, ?_⟩ <;>
      simp only [masterStockGo, List.get_cons_succ, List.take_succ_cons,
        List.map_cons, List.sum_cons] at h1 h2 h3 h4 h5 ⊢
    · exact h1
    · exact h2
    · rw [h3]; ring
    · rw [h4]; ring
    · rw [h5]; ring

/-- Splitting a prefix sum of a StockRow column at its last element. -/
theorem sum_map_take_succ (rows : List StockRow) (f : StockRow → ℚ) (j : ℕ)
    (h : j < rows.length) :
    ((rows.take (j + 1)).map f).sum =
      ((rows.take j).map f).sum + f (rows.get ⟨j, h⟩) := by
  rw [List.map_take, List.map_take,
    List.sum_take_succ (rows.map f) j (by simpa using h)]
  simp

/-- Opening balances are chained: each row of the register loop started
from the zero state opens at the closing of the previous row, and the
first row opens at 0. -/
theorem masterStockGo_opening_chain (m : ℕ → ℚ) (daily : List (ℕ × ℚ))
    (i : ℕ) (h : i < (masterStockGo m daily 0 0 0).length) :
    ((masterStockGo m daily 0 0 0).get ⟨i, h⟩).opening =
      (if i = 0 then 0 else
        ((masterStockGo m daily 0 0 0).get
          ⟨i - 1, Nat.lt_of_le_of_lt (Nat.sub_le i 1) h⟩).closing) := by
  obtain ⟨h1, h2, h3, h4, h5⟩ := masterStockGo_get m daily 0 0 0 i h
  cases i with
  | zero => simpa using h5
  | succ j =>
    have hj : j < (masterStockGo m daily 0 0 0).length :=
      Nat.lt_of_le_of_lt (Nat.le_succ j) h
    obtain ⟨g1, g2, g3, g4, g5⟩ := masterStockGo_get m daily 0 0 0 j hj
    rw [if_neg (Nat.succ_ne_zero j)]
    have hcl : ((masterStockGo m daily 0 0 0).get
        ⟨j + 1 - 1, Nat.lt_of_le_of_lt (Nat.sub_le (j + 1) 1) h⟩).closing =
        ((masterStockGo m daily 0 0 0).get ⟨j, hj⟩).closing := rfl
    rw [hcl, g2, g1, g5, h5,
      sum_map_take_succ (masterStockGo m daily 0 0 0) StockRow.received j hj,
      sum_map_take_succ (masterStockGo m daily 0 0 0) StockRow.issued j hj]
    ring

/-- C1.  Ledger identity: in the Master Stock register computed for a KMS
year, every row satisfies total = opening + received and
closing = total - issued, the opening of each row is the closing of the
previous row (0 before the first row), hence
closing[i] = closing[i-1] + received[i] - issued[i] with closing[-1] = 0. -/
theorem masterStock_ledger_identity (arrivals milling : List (ℕ × ℚ))
    (i : ℕ) (h : i < (masterStock arrivals milling).length) :
    ((masterStock arrivals milling).get ⟨i, h⟩).total =
      ((masterStock arrivals milling).get ⟨i, h⟩).opening +
        ((masterStock arrivals milling).get ⟨i, h⟩).received ∧
    ((masterStock arrivals milling).get ⟨i, h⟩).closing =
      ((masterStock arrivals milling).get ⟨i, h⟩).total -
        ((masterStock arrivals milling).get ⟨i, h⟩).issued ∧
    ((masterStock arrivals milling).get ⟨i, h⟩).opening =
      (if i = 0 then 0 else
        ((masterStock arrivals milling).get
          ⟨i - 1, Nat.lt_of_le_of_lt (Nat.sub_le i 1) h⟩).closing) ∧
    ((masterStock arrivals milling).get ⟨i, h⟩).closing =
      (if i = 0 then 0 else
        ((masterStock arrivals milling).get
          ⟨i - 1, Nat.lt_of_le_of_lt (Nat.sub_le i 1) h⟩).closing) +
        ((masterStock arrivals milling).get ⟨i, h⟩).received -
        ((masterStock arrivals milling).get ⟨i, h⟩).issued := by
  obtain ⟨h1, h2, h3, h4, h5⟩ := masterStockGo_get (millingByDate milling)
    (dailyReceived arrivals) 0 0 0 i h
  have key := masterStockGo_opening_chain (millingByDate milling)
    (dailyReceived arrivals) i h
  exact ⟨h1, h2, key, by simp only [masterStock]; rw [h2, h1, key]⟩

/-- Witness for the ledger identity at the concrete register built from
arrivals [(1, 100), (2, 50)] and milling [(2, 30)]. -/
theorem masterStock_ledger_identity_witness :
    ((masterStock [(1, (100 : ℚ)), (2, 50)] [(2, 30)]).get
        ⟨1, by decide⟩).closing =
      ((masterStock [(1, (100 : ℚ)), (2, 50)] [(2, 30)]).get
          ⟨0, by decide⟩).closing +
        ((masterStock [(1, (100 : ℚ)), (2, 50)] [(2, 30)]).get
          ⟨1, by decide⟩).received -
        ((masterStock [(1, (100 : ℚ)), (2, 50)] [(2, 30)]).get
          ⟨1, by decide⟩).issued ∧
    ((masterStock [(1, (100 : ℚ)), (2, 50)] [(2, 30)]).get
        ⟨1, by decide⟩).closing = 120 := by
  constructor
  · have h4 := (masterStock_ledger_identity [(1, 100), (2, 50)] [(2, 30)] 1
      (by decide)).2.2.2
    rw [if_neg (Nat.succ_ne_zero 0)] at h4
    exact h4
  · norm_num [masterStock, masterStockGo, dailyReceived, millingByDate,
      List.insertionSort, List.orderedInsert, List.dedup, List.pwFilter,
      List.filter_cons, List.filter_nil, List.sum_cons, List.sum_nil,
      List.get]

/-- C4.  Cumulative totals: in the computed stock register the progressive
received value of row i is the sum of the received column over rows 0..i,
and the progressive milling value of row i is the sum of the issued column
over rows 0..i, carried forward across dates. -/
theorem masterStock_progressive_totals (arrivals milling : List (ℕ × ℚ))
    (i : ℕ) (h : i < (masterStock arrivals milling).length) :
    ((masterStock arrivals milling).get ⟨i, h⟩).progReceived =
      (((masterStock arrivals milling).take (i + 1)).map
        StockRow.received).sum ∧
    ((masterStock arrivals milling).get ⟨i, h⟩).progMilling =
      (((masterStock arrivals milling).take (i + 1)).map
        StockRow.issued).sum := by
  obtain ⟨-, -, h3, h4, -⟩ := masterStockGo_get (millingByDate milling)
    (dailyReceived arrivals) 0 0 0 i h
  rw [zero_add] at h3 h4
  exact ⟨h3, h4⟩

/-- Witness for the cumulative totals at the concrete register built from
arrivals [(3, 10), (5, 20)] and milling [(5, 7)]. -/
theorem masterStock_progressive_totals_witness :
    ((masterStock [(3, (10 : ℚ)), (5, 20)] [(5, 7)]).get
        ⟨1, by decide⟩).progReceived =
      (((masterStock [(3, (10 : ℚ)), (5, 20)] [(5, 7)]).take 2).map
        StockRow.received).sum ∧
    ((masterStock [(3, (10 : ℚ)), (5, 20)] [(5, 7)]).get
        ⟨1, by decide⟩).progReceived = 30 := by
  constructor
  · exact (masterStock_progressive_totals [(3, 10), (5, 20)] [(5, 7)] 1
      (by decide)).1
  · norm_num [masterStock, masterStockGo, dailyReceived, millingByDate,
      List.insertionSort, List.orderedInsert, List.dedup, List.pwFilter,
      List.filter_cons, List.filter_nil, List.sum_cons, List.sum_nil,
      List.get]

/-- Last element of a mapped closing column, for a nonempty register. -/
theorem getLastD_map_closing :
    ∀ (rows : List StockRow) (h : rows ≠ []),
      (rows.map StockRow.closing).getLastD 0 = (rows.getLast h).closing
  | [x], _ => rfl
  | x :: y :: rest, _ => by
    simpa using getLastD_map_closing (y :: rest) (by simp)

/-- Telescoping identity at Go level: for a nonempty register produced from
the zero start state, the last closing balance is the last progressive
received total minus the last progressive milling total. -/
theorem masterStockGo_last (m : ℕ → ℚ) (daily : List (ℕ × ℚ))
    (h : masterStockGo m daily 0 0 0 ≠ []) :
    ((masterStockGo m daily 0 0 0).getLast h).closing =
      ((masterStockGo m daily 0 0 0).getLast h).progReceived -
        ((masterStockGo m daily 0 0 0).getLast h).progMilling := by
  have hidx : (masterStockGo m daily 0 0 0).length - 1 <
      (masterStockGo m daily 0 0 0).length := by
    have := List.length_pos.mpr h
    omega
  have hgl : (masterStockGo m daily 0 0 0).getLast h =
      (masterStockGo m daily 0 0 0).get
        ⟨(masterStockGo m daily 0 0 0).length - 1, hidx⟩ :=
    (List.get_length_sub_one hidx).symm
  obtain ⟨h1, h2, h3, h4, h5⟩ := masterStockGo_get m daily 0 0 0
    ((masterStockGo m daily 0 0 0).length - 1) hidx
  rw [hgl, h2, h1, h5, h3, h4,
    sum_map_take_succ (masterStockGo m daily 0 0 0) StockRow.received
      ((masterStockGo m daily 0 0 0).length - 1) hidx,
    sum_map_take_succ (masterStockGo m daily 0 0 0) StockRow.issued
      ((masterStockGo m daily 0 0 0).length - 1) hidx]
  ring

/-- C5.  Telescoping stock identity: for every nonempty register the final
closing balance equals the final progressive received total minus the
final progressive milling total, and that final closing balance is exactly
the Current Stock value reported by the Master Stock tab. -/
theorem masterStock_current_stock (arrivals milling : List (ℕ × ℚ))
    (h : masterStock arrivals milling ≠ []) :
    ((masterStock arrivals milling).getLast h).closing =
      ((masterStock arrivals milling).getLast h).progReceived -
        ((masterStock arrivals milling).getLast h).progMilling ∧
    registerCurrentStock arrivals milling =
      ((masterStock arrivals milling).getLast h).closing := by
  exact ⟨masterStockGo_last (millingByDate milling) (dailyReceived arrivals) h,
    getLastD_map_closing (masterStock arrivals milling) h⟩

/-- Witness for the telescoping identity at the register built from
arrivals [(4, 8)] and milling [(4, 3)]. -/
theorem masterStock_current_stock_witness :
    ((masterStock [(4, (8 : ℚ))] [(4, 3)]).getLast (by decide)).closing =
      ((masterStock [(4, (8 : ℚ))] [(4, 3)]).getLast
          (by decide)).progReceived -
        ((masterStock [(4, (8 : ℚ))] [(4, 3)]).getLast
          (by decide)).progMilling ∧
    registerCurrentStock [(4, (8 : ℚ))] [(4, 3)] = 5 := by
  constructor
  · exact (masterStock_current_stock [(4, 8)] [(4, 3)] (by decide)).1
  · norm_num [registerCurrentStock, masterStock, masterStockGo,
      dailyReceived, millingByDate, List.insertionSort, List.orderedInsert,
      List.dedup, List.pwFilter, List.filter_cons, List.filter_nil,
      List.sum_cons, List.sum_nil]

/-- C2.  Evaluation of the register at a failing input for the claimed
edge case of an issued amount on a date with no received amount: with
arrivals [(1, 100)] and milling [(2, 30)], the register loop iterates only
over dates having arrivals, so no row for date 2 exists, the Master Stock
Current Stock stays 100, while the Dashboard tab computes Current Stock
70 = 100 - 30 from the same data: the issued amount of date 2 is omitted
from the register instead of being carried into a closing balance. -/
theorem masterStock_drops_milling_only_date :
    ((masterStock [(1, (100 : ℚ))] [(2, 30)]).all
        (fun r => r.date != 2)) = true ∧
    registerCurrentStock [(1, (100 : ℚ))] [(2, 30)] = 100 ∧
    dashboardCurrentStock [(1, (100 : ℚ))] [(2, 30)] = 70 := by
  refine ⟨by decide, ?_, ?_⟩ <;>
    norm_num [registerCurrentStock, dashboardCurrentStock, masterStock,
      masterStockGo, dailyReceived, millingByDate, List.insertionSort,
      List.orderedInsert, List.dedup, List.pwFilter, List.filter_cons,
      List.filter_nil, List.sum_cons, List.sum_nil]

/-- C3.  The recalculation maps an unordered collection of
(date, received) pairs to one output row per distinct date, in strictly
ascending date order, each row carrying the sum of the received amounts of
its date; the result is a pure function of the stored rows, invariant
under any reordering of them. -/
theorem dailyReceived_spec (rows rows2 : List (ℕ × ℚ)) :
    ((dailyReceived rows).map Prod.fst).Sorted (· < ·) ∧
    (∀ d : ℕ, d ∈ (dailyReceived rows).map Prod.fst ↔
      d ∈ rows.map Prod.fst) ∧
    (∀ p ∈ dailyReceived rows,
      p.2 = ((rows.filter (fun r => r.1 == p.1)).map Prod.snd).sum) ∧
    (List.Perm rows rows2 → dailyReceived rows = dailyReceived rows2) := by
  have hmapfst : ∀ (l : List (ℕ × ℚ)),
      (dailyReceived l).map Prod.fst =
        (l.map Prod.fst).dedup.insertionSort (· ≤ ·) := by
    intro l
    simp [dailyReceived, List.map_map, Function.comp_def]
  refine ⟨?_, ?_, ?_, ?_⟩
  · rw [hmapfst]
    refine List.Sorted.lt_of_le
      (List.sorted_insertionSort (· ≤ ·) (rows.map Prod.fst).dedup) ?_
    exact ((List.perm_insertionSort (· ≤ ·)
      (rows.map Prod.fst).dedup).nodup_iff).mpr (List.nodup_dedup _)
  · intro d
    rw [hmapfst]
    simp [List.mem_dedup]
  · intro p hp
    obtain ⟨d, -, rfl⟩ := List.mem_map.mp hp
    rfl
  · intro hperm
    have hdates : (rows.map Prod.fst).dedup.insertionSort (· ≤ ·) =
        (rows2.map Prod.fst).dedup.insertionSort (· ≤ ·) := by
      refine List.eq_of_perm_of_sorted ?_
        (List.sorted_insertionSort (· ≤ ·) _)
        (List.sorted_insertionSort (· ≤ ·) _)
      exact (List.perm_insertionSort (· ≤ ·) _).trans
        (((hperm.map Prod.fst).dedup).trans
          (List.perm_insertionSort (· ≤ ·) _).symm)
    unfold dailyReceived
    rw [hdates]
    refine List.map_congr_left ?_
    intro d _
    have : List.Perm ((rows.filter (fun r => r.1 == d)).map Prod.snd)
        ((rows2.filter (fun r => r.1 == d)).map Prod.snd) :=
      (hperm.filter _).map _
    rw [this.sum_eq]

/-- Witness of the recalculation property at a concrete unordered input
and a reordering of it. -/
theorem dailyReceived_spec_witness :
    List.Perm [(2, (5 : ℚ)), (1, 3), (2, 4)] [(1, (3 : ℚ)), (2, 4), (2, 5)] ∧
    dailyReceived [(2, (5 : ℚ)), (1, 3), (2, 4)] =
      dailyReceived [(1, (3 : ℚ)), (2, 4), (2, 5)] ∧
    (9 : ℚ) =
      (([(2, (5 : ℚ)), (1, 3), (2, 4)].filter
        (fun r => r.1 == (2 : ℕ))).map Prod.snd).sum := by
  have hperm : List.Perm [(2, (5 : ℚ)), (1, 3), (2, 4)]
      [(1, (3 : ℚ)), (2, 4), (2, 5)] := by
    refine List.Perm.trans (List.Perm.swap _ _ _) ?_
    exact List.Perm.cons _ (List.Perm.swap _ _ _)
  have hmem : ((2 : ℕ), (9 : ℚ)) ∈
      dailyReceived [(2, (5 : ℚ)), (1, 3), (2, 4)] := by
    norm_num [dailyReceived, List.insertionSort, List.orderedInsert,
      List.dedup, List.pwFilter, List.filter_cons, List.filter_nil,
      List.sum_cons, List.sum_nil]
  refine ⟨hperm,
    (dailyReceived_spec [(2, 5), (1, 3), (2, 4)]
      [(1, 3), (2, 4), (2, 5)]).2.2.2 hperm,
    (dailyReceived_spec [(2, 5), (1, 3), (2, 4)]
      [(1, 3), (2, 4), (2, 5)]).2.2.1 (2, 9) hmem⟩

/-- One stored row of the Employee_Arrivals sheet (header list at
src/app.py lines 303-305; the entry_timestamp column is omitted as no
filter reads it). -/
structure EmployeeArrival where
  id : ℕ
  date : ℕ
  kms_year : String
  mandi_name : String
  vehicle_number : String
  bags : ℕ
  weight_quintals : ℚ
  godown : String
  expected_weight : ℚ
  difference : ℚ
  entered_by : String
  remarks : String
  deriving Repr, DecidableEq

/-- One stored row of the Admin_Arrivals sheet (header list at src/app.py
lines 306-307; the entry_timestamp column is omitted as no filter reads
it). -/
structure AdminArrival where
  id : ℕ
  date : ℕ
  kms_year : String
  mandi_name : String
  vehicle_number : String
  ac_note : String
  quantity_quintals : ℚ
  entered_by : String
  remarks : String
  deriving Repr, DecidableEq

/-- Descending-date order used by sort_values with ascending=False. -/
def empDateDesc (a b : EmployeeArrival) : Prop := b.date ≤ a.date

instance : DecidableRel empDateDesc := fun a b => Nat.decLe b.date a.date

instance : IsTotal EmployeeArrival empDateDesc :=
  ⟨fun a b => le_total b.date a.date⟩

instance : IsTrans EmployeeArrival empDateDesc :=
  ⟨fun _ _ _ hab hbc => le_trans hbc hab⟩

/-- Descending-date order on admin arrival rows. -/
def admDateDesc (a b : AdminArrival) : Prop := b.date ≤ a.date

instance : DecidableRel admDateDesc := fun a b => Nat.decLe b.date a.date

instance : IsTotal AdminArrival admDateDesc :=
  ⟨fun a b => le_total b.date a.date⟩

instance : IsTrans AdminArrival admDateDesc :=
  ⟨fun _ _ _ hab hbc => le_trans hbc hab⟩

/-- Model of get_employee_arrivals (src/app.py lines 515-530): filter the
sheet rows by kms_year, then by entered_by when a user is given, then by
the optional inclusive date bounds, and sort by date descending.  The
early return on an empty frame and the final conditional are equivalent to
always sorting the filtered rows. -/
def get_employee_arrivals (rows : List EmployeeArrival) (kmsYear : String)
    (user : Option String) (startDate endDate : Option ℕ) :
    List EmployeeArrival :=
  let df := rows.filter (fun r => r.kms_year == kmsYear)
  let df := match user with
    | none => df
    | some u => df.filter (fun r => r.entered_by == u)
  let df := match startDate with
    | none => df
    | some s => df.filter (fun r => decide (s ≤ r.date))
  let df := match endDate with
    | none => df
    | some e => df.filter (fun r => decide (r.date ≤ e))
  df.insertionSort empDateDesc

/-- Model of get_admin_arrivals (src/app.py lines 532-545): the same
filters without the entered_by filter. -/
def get_admin_arrivals (rows : List AdminArrival) (kmsYear : String)
    (startDate endDate : Option ℕ) : List AdminArrival :=
  let df := rows.filter (fun r => r.kms_year == kmsYear)
  let df := match startDate with
    | none => df
    | some s => df.filter (fun r => decide (s ≤ r.date))
  let df := match endDate with
    | none => df
    | some e => df.filter (fun r => decide (r.date ≤ e))
  df.insertionSort admDateDesc

/-- Combined row predicate of the employee-arrival filters. -/
def empMatches (kmsYear : String) (user : Option String)
    (startDate endDate : Option ℕ) (r : EmployeeArrival) : Bool :=
  (r.kms_year == kmsYear) &&
  (match user with
    | none => true
    | some u => r.entered_by == u) &&
  (match startDate with
    | none => true
    | some s => decide (s ≤ r.date)) &&
  (match endDate with
    | none => true
    | some e => decide (r.date ≤ e))

/-- Combined row predicate of the admin-arrival filters. -/
def admMatches (kmsYear : String) (startDate endDate : Option ℕ)
    (r : AdminArrival) : Bool :=
  (r.kms_year == kmsYear) &&
  (match startDate with
    | none => true
    | some s => decide (s ≤ r.date)) &&
  (match endDate with
    | none => true
    | some e => decide (r.date ≤ e))

/-- C6.  KMS-year partitioning: each arrivals query returns exactly (as a
multiset) the stored rows of the requested KMS year that pass the
optional user and date-range filters, in descending date order; in
particular no row of a different KMS year is ever included. -/
theorem arrivals_filter_spec (rows : List EmployeeArrival)
    (rows2 : List AdminArrival) (kmsYear : String) (user : Option String)
    (startDate endDate : Option ℕ) :
    List.Perm (get_employee_arrivals rows kmsYear user startDate endDate)
      (rows.filter (empMatches kmsYear user startDate endDate)) ∧
    List.Sorted empDateDesc
      (get_employee_arrivals rows kmsYear user startDate endDate) ∧
    List.Perm (get_admin_arrivals rows2 kmsYear startDate endDate)
      (rows2.filter (admMatches kmsYear startDate endDate)) ∧
    List.Sorted admDateDesc
      (get_admin_arrivals rows2 kmsYear startDate endDate) := by
  refine ⟨?_, List.sorted_insertionSort empDateDesc _, ?_,
    List.sorted_insertionSort admDateDesc _⟩
  · refine (List.perm_insertionSort empDateDesc _).trans ?_
    cases user <;> cases startDate <;> cases endDate <;>
      simp only [List.filter_filter] <;>
      refine List.Perm.of_eq (List.filter_congr ?_) <;>
      intro r _ <;>
      simp [empMatches, Bool.and_comm, Bool.and_left_comm, Bool.and_assoc]
  · refine (List.perm_insertionSort admDateDesc _).trans ?_
    cases startDate <;> cases endDate <;>
      simp only [List.filter_filter] <;>
      refine List.Perm.of_eq (List.filter_congr ?_) <;>
      intro r _ <;>
      simp [admMatches, Bool.and_comm, Bool.and_left_comm, Bool.and_assoc]

/-- A worksheet: the header row and the data rows, each data row a list of
cell strings aligned with the headers (worksheet.get_all_records and
worksheet.row_values(1) in src/app.py). -/
structure Worksheet where
  headers : List String
  rows : List (List String)
  deriving Repr, DecidableEq

/-- The data_dict argument of the mutation helpers: field name to value,
values already stringified as the code does with str(...). -/
def DataDict := List (String × String)

/-- Outcome of the spreadsheet connection and API layer as observed by one
mutation helper: get_spreadsheet may return None (noSpreadsheet), any
storage call inside the try block may raise (apiError), or the calls
succeed against worksheet state ws (ok). -/
inductive SheetsEnv where
  | noSpreadsheet
  | apiError (msg : String)
  | ok (ws : Worksheet)
  deriving Repr, DecidableEq

/-- Result of a mutation helper: the returned boolean, the message passed
to st.error if any, and the resulting worksheet state when a spreadsheet
was reachable. -/
structure MutResult where
  success : Bool
  errorShown : Option String
  ws : Option Worksheet
  deriving Repr, DecidableEq

/-- The string compared against str(row_id): str(row.get(id-key)), which
is the cell under the id header, or the Python literal None rendered as a
string when the sheet has no id column (src/app.py lines 455 and 478). -/
def recordIdStr (headers : List String) (row : List String) : String :=
  match headers.indexOf? "id" with
  | none => "None"
  | some j => (row.get? j).getD ""

/-- The appended row of add_row (src/app.py line 436): one cell per
header, taken from data_dict with default "". -/
def appendedRow (headers : List String) (d : DataDict) : List String :=
  headers.map (fun h => (d.lookup h).getD "")

/-- Model of add_row (src/app.py lines 427-442). -/
def add_row (env : SheetsEnv) (sheetName : String) (d : DataDict) :
    MutResult :=
  match env with
  | .noSpreadsheet => ⟨false, none, none⟩
  | .apiError msg =>
    ⟨false, some ("Error adding row to " ++ sheetName ++ ": " ++ msg), none⟩
  | .ok ws =>
    ⟨true, none, some ⟨ws.headers, ws.rows ++ [appendedRow ws.headers d]⟩⟩

/-- The per-cell update of the update_cell loop at src/app.py lines
456-459: each cell whose header occurs in data_dict is overwritten. -/
def updateRecord (headers : List String) (d : DataDict)
    (row : List String) : List String :=
  row.enum.map (fun p =>
    match (headers.get? p.1).bind (fun h => d.lookup h) with
    | some v => v
    | none => p.2)

/-- The row scan of update_row (src/app.py lines 454-462): update the
first row whose id cell matches and report whether one was found. -/
def updateRowsGo (headers : List String) (d : DataDict) (rowId : String) :
    List (List String) → Option (List (List String))
  | [] => none
  | r :: rest =>
    if recordIdStr headers r = rowId then
      some (updateRecord headers d r :: rest)
    else
      match updateRowsGo headers d rowId rest with
      | some rest2 => some (r :: rest2)
      | none => none

/-- Model of update_row (src/app.py lines 444-465). -/
def update_row (env : SheetsEnv) (sheetName : String) (rowId : String)
    (d : DataDict) : MutResult :=
  match env with
  | .noSpreadsheet => ⟨false, none, none⟩
  | .apiError msg =>
    ⟨false, some ("Error updating " ++ sheetName ++ ": " ++ msg), none⟩
  | .ok ws =>
    match updateRowsGo ws.headers d rowId ws.rows with
    | some rows2 => ⟨true, none, some ⟨ws.headers, rows2⟩⟩
    | none => ⟨false, none, some ws⟩

/-- The row scan of delete_row (src/app.py lines 477-482): delete the
first row whose id cell matches and report whether one was found. -/
def deleteRowsGo (headers : List String) (rowId : String) :
    List (List String) → Option (List (List String))
  | [] => none
  | r :: rest =>
    if recordIdStr headers r = rowId then
      some rest
    else
      match deleteRowsGo headers rowId rest with
      | some rest2 => some (r :: rest2)
      | none => none

/-- Model of delete_row (src/app.py lines 467-485). -/
def delete_row (env : SheetsEnv) (sheetName : String) (rowId : String) :
    MutResult :=
  match env with
  | .noSpreadsheet => ⟨false, none, none⟩
  | .apiError msg =>
    ⟨false, some ("Error deleting from " ++ sheetName ++ ": " ++ msg), none⟩
  | .ok ws =>
    match deleteRowsGo ws.headers rowId ws.rows with
    | some rows2 => ⟨true, none, some ⟨ws.headers, rows2⟩⟩
    | none => ⟨false, none, some ws⟩

/-- The update scan finds a row exactly when some row matches the id. -/
theorem updateRowsGo_isSome (headers : List String) (d : DataDict)
    (rowId : String) :
    ∀ rows : List (List String),
      (updateRowsGo headers d rowId rows).isSome =
        rows.any (fun r => recordIdStr headers r == rowId)
  | [] => rfl
  | r :: rest => by
    by_cases hid : recordIdStr headers r = rowId
    · simp [updateRowsGo, hid]
    · have ih := updateRowsGo_isSome headers d rowId rest
      cases hgo : updateRowsGo headers d rowId rest <;>
        simp [updateRowsGo, hid, hgo] <;>
        simpa [hgo] using ih

/-- The delete scan finds a row exactly when some row matches the id. -/
theorem deleteRowsGo_isSome (headers : List String) (rowId : String) :
    ∀ rows : List (List String),
      (deleteRowsGo headers rowId rows).isSome =
        rows.any (fun r => recordIdStr headers r == rowId)
  | [] => rfl
  | r :: rest => by
    by_cases hid : recordIdStr headers r = rowId
    · simp [deleteRowsGo, hid]
    · have ih := deleteRowsGo_isSome headers rowId rest
      cases hgo : deleteRowsGo headers rowId rest <;>
        simp [deleteRowsGo, hid, hgo] <;>
        simpa [hgo] using ih

/-- C7.  Error handling of the storage mutations: when the spreadsheet is
unreachable or any storage call raises, each helper returns False (with an
error message displayed in the raising case) instead of propagating the
exception; add_row returns True exactly on the success path; update_row
and delete_row return True exactly when a stored row carries the given id,
and in particular return False, leaving the rows unchanged, when no such
row exists. -/
theorem storage_mutation_spec (sheetName msg rowId : String) (d : DataDict)
    (ws : Worksheet) :
    (add_row SheetsEnv.noSpreadsheet sheetName d).success = false ∧
    (add_row (SheetsEnv.apiError msg) sheetName d).success = false ∧
    (add_row (SheetsEnv.apiError msg) sheetName d).errorShown.isSome =
      true ∧
    (add_row (SheetsEnv.ok ws) sheetName d).success = true ∧
    (update_row SheetsEnv.noSpreadsheet sheetName rowId d).success =
      false ∧
    (update_row (SheetsEnv.apiError msg) sheetName rowId d).success =
      false ∧
    (update_row (SheetsEnv.apiError msg) sheetName rowId
      d).errorShown.isSome = true ∧
    (update_row (SheetsEnv.ok ws) sheetName rowId d).success =
      ws.rows.any (fun r => recordIdStr ws.headers r == rowId) ∧
    (update_row (SheetsEnv.ok ws) sheetName rowId d).ws =
      some (if (updateRowsGo ws.headers d rowId ws.rows).isSome then
        ⟨ws.headers, (updateRowsGo ws.headers d rowId ws.rows).getD []⟩
      else ws) ∧
    (delete_row SheetsEnv.noSpreadsheet sheetName rowId).success = false ∧
    (delete_row (SheetsEnv.apiError msg) sheetName rowId).success =
      false ∧
    (delete_row (SheetsEnv.apiError msg) sheetName
      rowId).errorShown.isSome = true ∧
    (delete_row (SheetsEnv.ok ws) sheetName rowId).success =
      ws.rows.any (fun r => recordIdStr ws.headers r == rowId) := by
  refine ⟨rfl, rfl, rfl, rfl, rfl, rfl, rfl, ?_, ?_, rfl, rfl, rfl, ?_⟩
  · rw [← updateRowsGo_isSome ws.headers d rowId ws.rows]
    cases hgo : updateRowsGo ws.headers d rowId ws.rows <;>
      simp [update_row, hgo]
  · cases hgo : updateRowsGo ws.headers d rowId ws.rows <;>
      simp [update_row, hgo]
  · rw [← deleteRowsGo_isSome ws.headers rowId ws.rows]
    cases hgo : deleteRowsGo ws.headers rowId ws.rows <;>
      simp [delete_row, hgo]

/-- Rounding of a rational to the nearest integer with ties to even, the
behaviour of the Python built-in round on exact values. -/
def roundHalfEven (x : ℚ) : ℤ :=
  if x - ⌊x⌋ < 1 / 2 then ⌊x⌋
  else if 1 / 2 < x - ⌊x⌋ then ⌊x⌋ + 1
  else if ⌊x⌋ % 2 = 0 then ⌊x⌋ else ⌊x⌋ + 1

/-- Model of round(x, 2): round at the second decimal place. -/
def round2 (x : ℚ) : ℚ := (roundHalfEven (100 * x) : ℚ) / 100

/-- expected_weight computed when a new employee entry is submitted
(src/app.py line 734): round(bags * WEIGHT_PER_BAG, 2). -/
def submitExpectedWeight (bags : ℕ) : ℚ :=
  round2 (bags * WEIGHT_PER_BAG)

/-- difference computed when a new employee entry is submitted (src/app.py
line 735): round(weight - expected_weight, 2). -/
def submitDifference (bags : ℕ) (weight : ℚ) : ℚ :=
  round2 (weight - submitExpectedWeight bags)

/-- The threshold flag of src/app.py lines 741 and 880:
abs(difference) > DIFFERENCE_THRESHOLD. -/
def exceedsThreshold (difference : ℚ) : Bool :=
  decide (|difference| > DIFFERENCE_THRESHOLD)

/-- new_expected recomputed when an entry is edited (src/app.py line
850). -/
def editExpectedWeight (bags : ℕ) : ℚ :=
  round2 (bags * WEIGHT_PER_BAG)

/-- new_diff recomputed when an entry is edited (src/app.py line 851). -/
def editDifference (bags : ℕ) (weight : ℚ) : ℚ :=
  round2 (weight - editExpectedWeight bags)

/-- Rounding an exact integer value changes nothing. -/
theorem roundHalfEven_intCast (n : ℤ) : roundHalfEven (n : ℚ) = n := by
  unfold roundHalfEven
  rw [Int.floor_intCast]
  norm_num

/-- C8.  Expected-weight formula: for every accepted employee entry
(bags > 0 and weight > 0) the stored expected weight is
round(bags * 0.51, 2), which equals exactly bags * 51 / 100 quintals (51
kg per bag), the stored difference is round(weight - expected, 2), the
entry is flagged exactly when the absolute difference exceeds 2.0
quintals, and the edit path recomputes the identical values. -/
theorem expected_weight_spec (bags : ℕ) (weight : ℚ) (hb : 0 < bags)
    (hw : 0 < weight) :
    submitExpectedWeight bags = round2 (bags * WEIGHT_PER_BAG) ∧
    submitExpectedWeight bags = (bags * 51 : ℚ) / 100 ∧
    submitDifference bags weight =
      round2 (weight - submitExpectedWeight bags) ∧
    (exceedsThreshold (submitDifference bags weight) = true ↔
      |submitDifference bags weight| > 2) ∧
    editExpectedWeight bags = submitExpectedWeight bags ∧
    editDifference bags weight = submitDifference bags weight := by
  have hexp : submitExpectedWeight bags = (bags * 51 : ℚ) / 100 := by
    unfold submitExpectedWeight round2 WEIGHT_PER_BAG
    have h100 : (100 : ℚ) * ((bags : ℚ) * (51 / 100)) =
        ((bags * 51 : ℤ) : ℚ) := by
      push_cast
      ring
    rw [h100, roundHalfEven_intCast]
    push_cast
    ring
  refine ⟨rfl, hexp, rfl, ?_, rfl, rfl⟩
  unfold exceedsThreshold DIFFERENCE_THRESHOLD
  simp

/-- Witness of the expected-weight formula at bags = 10 and weight = 6
quintals: expected 5.1, difference 0.9, not flagged. -/
theorem expected_weight_spec_witness :
    (0 < 10 ∧ (0 : ℚ) < 6) ∧
    submitExpectedWeight 10 = (10 * 51 : ℚ) / 100 ∧
    submitDifference 10 6 = 9 / 10 ∧
    exceedsThreshold (submitDifference 10 6) = false := by
  have hexp := (expected_weight_spec 10 6 (by norm_num) (by norm_num)).2.1
  have hd : submitDifference 10 6 = 9 / 10 := by
    unfold submitDifference round2
    rw [hexp]
    norm_num
    rw [show (90 : ℚ) = ((90 : ℤ) : ℚ) from by norm_num,
      roundHalfEven_intCast]
    norm_num
  refine ⟨⟨by norm_num, by norm_num⟩, hexp, hd, ?_⟩
  rw [hd]
  have hno : ¬ (|(9 : ℚ) / 10| > 2) := by
    rw [abs_of_pos (by norm_num : (0 : ℚ) < 9 / 10)]
    norm_num
  simpa [exceedsThreshold, DIFFERENCE_THRESHOLD] using hno

/-- One stored row of the Users sheet (header list at src/app.py line
302; phone and created_at are omitted as verify_login never reads
them). -/
structure UserRow where
  id : ℕ
  username : String
  password_hash : String
  role : String
  full_name : String
  is_active : String
  deriving Repr, DecidableEq

/-- Model of hash_password (src/app.py lines 496-498).  The function wraps
the external library call hashlib.sha256(password.encode()).hexdigest();
the digest itself is not repository code, so it enters the model as the
abstract parameter sha256hex. -/
def hash_password (sha256hex : String → String) (password : String) :
    String :=
  sha256hex password

/-- Model of verify_login (src/app.py lines 500-513): None on an empty
user table, else the (id, username, role, full_name) of the first stored
row whose username matches exactly, whose password_hash equals the digest
of the given password, and whose is_active (as a string) is "1"; None
when no row qualifies. -/
def verify_login (sha256hex : String → String) (users : List UserRow)
    (username password : String) : Option (ℕ × String × String × String) :=
  if users.isEmpty then none
  else
    match users.filter (fun r =>
        (r.username == username) &&
        (r.password_hash == hash_password sha256hex password) &&
        (r.is_active == "1")) with
    | [] => none
    | r :: _ => some (r.id, r.username, r.role, r.full_name)

/-- C9.  Login gating: verify_login returns user information exactly when
some stored row has the exact username, a password_hash equal to the
digest of the given password, and is_active equal to "1"; in every other
case, including a deactivated user with the correct password or an empty
user table, it returns None. -/
theorem verify_login_spec (sha256hex : String → String)
    (users : List UserRow) (username password : String) :
    (verify_login sha256hex users username password).isSome = true ↔
      ∃ r ∈ users, r.username = username ∧
        r.password_hash = sha256hex password ∧ r.is_active = "1" := by
  unfold verify_login hash_password
  by_cases hempty : users.isEmpty
  · rw [if_pos hempty]
    rw [List.isEmpty_iff] at hempty
    subst hempty
    simp
  · rw [if_neg hempty]
    cases hft : users.filter (fun r =>
        (r.username == username) &&
        (r.password_hash == sha256hex password) &&
        (r.is_active == "1")) with
    | nil =>
      simp only [Option.isSome_none]
      constructor
      · intro hfalse
        exact absurd hfalse (by simp)
      · rintro ⟨r, hr, h1, h2, h3⟩
        have : r ∈ users.filter (fun r =>
            (r.username == username) &&
            (r.password_hash == sha256hex password) &&
            (r.is_active == "1")) := by
          rw [List.mem_filter]
          exact ⟨hr, by simp [h1, h2, h3]⟩
        rw [hft] at this
        exact absurd this (List.not_mem_nil r)
    | cons r rest =>
      simp only [Option.isSome_some, true_iff]
      have : r ∈ users.filter (fun r =>
          (r.username == username) &&
          (r.password_hash == sha256hex password) &&
          (r.is_active == "1")) := by
        rw [hft]
        exact List.mem_cons_self r rest
      rw [List.mem_filter] at this
      obtain ⟨hmem, hpred⟩ := this
      simp only [Bool.and_eq_true, beq_iff_eq] at hpred
      exact ⟨r, hmem, hpred.1.1, hpred.1.2, hpred.2⟩

/-- Model of get_next_id (src/app.py lines 487-492): 1 when the sheet has
no rows or no id column, otherwise int(df[id-column].max()) + 1.  The
argument is the id column of the sheet: none when the column is absent,
otherwise the list of stored ids. -/
def get_next_id (idColumn : Option (List ℤ)) : ℤ :=
  match idColumn with
  | none => 1
  | some [] => 1
  | some (i :: is) => is.foldl max i + 1

/-- A fold of max starting at x is at least x. -/
theorem le_foldl_max_self : ∀ (xs : List ℤ) (x : ℤ), x ≤ xs.foldl max x
  | [], _ => le_refl _
  | y :: ys, x =>
    le_trans (le_max_left x y) (le_foldl_max_self ys (max x y))

/-- A fold of max bounds every listed element. -/
theorem le_foldl_max_of_mem :
    ∀ (xs : List ℤ) (x i : ℤ), i ∈ xs → i ≤ xs.foldl max x
  | y :: ys, x, i, hmem => by
    rcases List.mem_cons.mp hmem with rfl | hmem2
    · exact le_trans (le_max_right x i) (le_foldl_max_self ys (max x i))
    · exact le_foldl_max_of_mem ys (max x y) i hmem2

/-- C10.  Fresh-id invariant: get_next_id returns 1 for a sheet with no
rows or no id column; otherwise it returns one plus the maximum stored id
(the value one below the returned id occurs in the sheet and every stored
id is strictly below the returned id), so prepending the returned id to a
duplicate-free id column keeps it duplicate-free. -/
theorem get_next_id_spec (ids : List ℤ) (i : ℤ) :
    get_next_id none = 1 ∧
    get_next_id (some []) = 1 ∧
    (i ∈ ids → i < get_next_id (some ids)) ∧
    (ids ≠ [] → get_next_id (some ids) - 1 ∈ ids) ∧
    (ids.Nodup → (get_next_id (some ids) :: ids).Nodup) := by
  have hbound : ∀ j ∈ ids, j < get_next_id (some ids) := by
    intro j hj
    cases ids with
    | nil => exact absurd hj (List.not_mem_nil j)
    | cons x xs =>
      have : j ≤ xs.foldl max x := by
        rcases List.mem_cons.mp hj with rfl | hmem
        · exact le_foldl_max_self xs j
        · exact le_foldl_max_of_mem xs x j hmem
      calc j ≤ xs.foldl max x := this
        _ < xs.foldl max x + 1 := by omega
        _ = get_next_id (some (x :: xs)) := rfl
  refine ⟨rfl, rfl, fun hi => hbound i hi, ?_, ?_⟩
  · intro hne
    cases ids with
    | nil => exact absurd rfl hne
    | cons x xs =>
      have hmax : ∀ (ys : List ℤ) (y : ℤ),
          ys.foldl max y = y ∨ ys.foldl max y ∈ ys := by
        intro ys
        induction ys with
        | nil => exact fun y => Or.inl rfl
        | cons z zs ih =>
          intro y
          rcases ih (max y z) with heq | hmem
          · rcases max_choice y z with hy | hz
            · exact Or.inl (by rw [List.foldl_cons, heq, hy])
            · exact Or.inr (by rw [List.foldl_cons, heq, hz]; simp)
          · exact Or.inr (List.mem_cons_of_mem z hmem)
      have : get_next_id (some (x :: xs)) - 1 = xs.foldl max x := by
        show xs.foldl max x + 1 - 1 = xs.foldl max x
        omega
      rw [this]
      rcases hmax xs x with heq | hmem
      · rw [heq]; exact List.mem_cons_self x xs
      · exact List.mem_cons_of_mem x hmem
  · intro hnd
    refine List.nodup_cons.mpr ⟨?_, hnd⟩
    intro hmem
    exact absurd (hbound _ hmem) (by omega)

/-- Witness of the fresh-id invariant at the id column [3, 1, 2]. -/
theorem get_next_id_spec_witness :
    ((3 : ℤ) ∈ ([3, 1, 2] : List ℤ) ∧ ([3, 1, 2] : List ℤ) ≠ [] ∧
      ([3, 1, 2] : List ℤ).Nodup) ∧
    (3 : ℤ) < get_next_id (some [3, 1, 2]) ∧
    get_next_id (some [3, 1, 2]) - 1 ∈ ([3, 1, 2] : List ℤ) ∧
    (get_next_id (some [3, 1, 2]) :: [3, 1, 2]).Nodup ∧
    get_next_id (some [3, 1, 2]) = 4 := by
  obtain ⟨-, -, h3, h4, h5⟩ := get_next_id_spec [3, 1, 2] 3
  exact ⟨⟨by decide, by decide, by decide⟩, h3 (by decide), h4 (by decide),
    h5 (by decide), by decide⟩

end RiceMill
